import Mathlib

/-!
Verification of the indexing pipeline of TheLearningAssistant
(src/loaders.py, src/embeddings.py, src/dspy_pipeline.py, src/main.py).

The Python code is embedded shallowly: pure helpers become Lean functions on
String and List Char, filesystem contents and external collaborators become
explicit parameters, and a Python call that can raise is modelled as an
Except value.  Regular-expression substitutions from clean_text are embedded
as character-level scanners with the leftmost-longest semantics of re.sub.
-/

namespace TLA

/-! ## clean_text (loaders.py, lines 62 to 75) -/

/-- Character class of the substitution removing non-ASCII characters,
regex [^\x00-\x7F]. -/
def isNonAscii (c : Char) : Bool := 0x7F < c.toNat

/-- Character class of the repeated-punctuation substitution, regex [.:;,].
Note that the exclamation mark is not in this class. -/
def isPunctCollapse (c : Char) : Bool := c = '.' || c = ':' || c = ';' || c = ','

/-- Character class of the OCR-artifact substitution, regex [~\x60]
(tilde and backtick). -/
def isTildeBacktick (c : Char) : Bool := c = '~' || c = Char.ofNat 0x60

/-- Python regex \s restricted to the ASCII range.  Every use of \s in
clean_text runs after the first substitution has removed all non-ASCII
characters, so the ASCII part of the Python whitespace class is exact here. -/
def isPySpace (c : Char) : Bool :=
  c = ' ' || c = '\t' || c = '\n' || c = '\r' || c = '\x0b' || c = '\x0c' ||
  c = '\x1c' || c = '\x1d' || c = '\x1e' || c = '\x1f'

/-- Scanner for re.sub of a pattern C+ (one or more characters of class p)
replaced by a single character rep.  The Bool state records being inside a
run whose replacement has already been emitted. -/
def subClassRunsAux (p : Char → Bool) (rep : Char) : Bool → List Char → List Char
  | _, [] => []
  | inRun, c :: rest =>
    if p c then
      if inRun then subClassRunsAux p rep true rest
      else rep :: subClassRunsAux p rep true rest
    else c :: subClassRunsAux p rep false rest

def subClassRuns (p : Char → Bool) (rep : Char) (l : List Char) : List Char :=
  subClassRunsAux p rep false l

/-- State of the scanner for patterns of the form C-run of length at least 2. -/
inductive RunState where
  | idle
  | pending (c : Char)
  | swallow
deriving Repr, DecidableEq

/-- Scanner for re.sub of a pattern of two or more characters of class p
replaced by the string rep; a lone class character is left unchanged.
State pending c means one class character c has been seen and the run may
still turn out to have length one; swallow means the replacement for the
current run is already emitted. -/
def subRunsAux (p : Char → Bool) (rep : List Char) : RunState → List Char → List Char
  | .idle, [] => []
  | .pending c0, [] => [c0]
  | .swallow, [] => []
  | .idle, c :: rest =>
    if p c then subRunsAux p rep (.pending c) rest
    else c :: subRunsAux p rep .idle rest
  | .pending c0, c :: rest =>
    if p c then rep ++ subRunsAux p rep .swallow rest
    else c0 :: c :: subRunsAux p rep .idle rest
  | .swallow, c :: rest =>
    if p c then subRunsAux p rep .swallow rest
    else c :: subRunsAux p rep .idle rest

def subRuns (p : Char → Bool) (rep : List Char) (l : List Char) : List Char :=
  subRunsAux p rep .idle l

/-- Scanner for re.sub(r, ...) with pattern backslash followed by one or
more letters n, replaced by a newline.  The Bool state records that the tail
of such a run is still being swallowed. -/
def subBackslashNAux : Bool → List Char → List Char
  | _, [] => []
  | _, '\\' :: 'n' :: rest2 => '\n' :: subBackslashNAux true rest2
  | true, 'n' :: rest => subBackslashNAux true rest
  | _, c :: rest => c :: subBackslashNAux false rest

def subBackslashN (l : List Char) : List Char := subBackslashNAux false l

/-- The suffix of the list that follows its last newline, if any newline
occurs in the list. -/
def afterLastNl : List Char → Option (List Char)
  | [] => none
  | c :: rest =>
    match afterLastNl rest with
    | some r => some r
    | none => if c = '\n' then some rest else none

/-- Scanner for re.sub of the paragraph-break pattern: a newline, then
greedy whitespace, then a final newline, replaced by two newlines.  Greedy
matching makes the match extend to the last newline reachable through
whitespace.  The fuel argument only bounds the recursion; a fuel equal to
the length of the list is always sufficient because every step consumes at
least one character. -/
def subParaBreaksAux : Nat → List Char → List Char
  | 0, l => l
  | _ + 1, [] => []
  | fuel + 1, c :: rest =>
    if c = '\n' then
      match afterLastNl (rest.takeWhile isPySpace) with
      | some w2 => '\n' :: '\n' :: subParaBreaksAux fuel (w2 ++ rest.dropWhile isPySpace)
      | none => c :: subParaBreaksAux fuel rest
    else c :: subParaBreaksAux fuel rest

def subParaBreaks (l : List Char) : List Char := subParaBreaksAux l.length l

/-- Character class of the final control-character removal, regex
[\x00-\x08\x0B\x0C\x0E-\x1F\x7F-\xFF]. -/
def isCtrlStrip (c : Char) : Bool :=
  c.toNat ≤ 0x08 || c.toNat = 0x0B || c.toNat = 0x0C ||
  (0x0E ≤ c.toNat && c.toNat ≤ 0x1F) || (0x7F ≤ c.toNat && c.toNat ≤ 0xFF)

/-- Python str.strip(): remove leading and trailing whitespace. -/
def pyStrip (l : List Char) : List Char :=
  ((l.dropWhile isPySpace).reverse.dropWhile isPySpace).reverse

/-- loaders.clean_text: the eight-step substitution pipeline, in source
order: remove non-ASCII runs, collapse repeated [.:;,] punctuation to one
period, normalize whitespace runs to one space, turn literal backslash-n
sequences into newlines, normalize paragraph breaks, delete tilde and
backtick runs, remove control characters, and strip the ends. -/
def clean_text (s : String) : String :=
  let t := subClassRuns isNonAscii ' ' s.data
  let t := subRuns isPunctCollapse ['.'] t
  let t := subClassRuns isPySpace ' ' t
  let t := subBackslashN t
  let t := subParaBreaks t
  let t := subRuns isTildeBacktick [] t
  let t := t.filter (fun c => !(isCtrlStrip c))
  String.mk (pyStrip t)

/-! ## Documents and the loader (loaders.py) -/

/-- Metadata values set by this code: strings, integers and booleans. -/
inductive MetaVal where
  | str (s : String)
  | nat (n : Nat)
  | bool (b : Bool)
deriving Repr, DecidableEq

/-- langchain.schema.Document: page content plus metadata. -/
structure LangchainDocument where
  page_content : String
  metadata : List (String × MetaVal)
deriving Repr, DecidableEq

/-- Python str.endswith, as a suffix test on the character lists. -/
def strEndsWith (s suffixStr : String) : Bool := suffixStr.data.isSuffixOf s.data

/-- os.path.join for the flat directory layout used here. -/
def osPathJoin (a b : String) : String := a ++ "/" ++ b

instance exceptDecEq {ε α : Type} [DecidableEq ε] [DecidableEq α] :
    DecidableEq (Except ε α)
  | .error e, .error f => decidable_of_iff (e = f) (by simp)
  | .error _, .ok _ => .isFalse (by simp)
  | .ok _, .error _ => .isFalse (by simp)
  | .ok a, .ok b => decidable_of_iff (a = b) (by simp)

/-- One entry of the data directory, carrying the outcome each extractor
would produce if invoked on it.  An error value models the corresponding
library call raising an exception: docx.Document for docxData, PyPDF2 page
extraction for pdfData, and an utf-8 open and read for textData. -/
structure DirFile where
  name : String
  docxData : Except String (List String)
  pdfData : Except String (List String)
  textData : Except String String
deriving Repr, DecidableEq

/-- The guard `if text.strip():` before each docs.append in load_documents:
keep the document only when the stripped cleaned text is non-empty. -/
def keepIfContent (text : String) (meta : List (String × MetaVal)) :
    Option LangchainDocument :=
  if pyStrip text.data ≠ [] then some { page_content := text, metadata := meta }
  else none

/-- The per-file body of the loader loop (loaders.py, lines 99 to 154):
dispatch on the file extension, extract, clean, and keep the document only
when the cleaned text has content; an extraction error or an unrecognized
extension yields nothing.  The try/except around the body catches the
extraction errors, modelled by the error branches returning none. -/
def processFile (dataPath : String) (f : DirFile) : Option LangchainDocument :=
  if strEndsWith f.name ".docx" || strEndsWith f.name ".doc" then
    match f.docxData with
    | .error _ => none
    | .ok paras =>
      keepIfContent (clean_text (String.intercalate "\n" paras))
        [("source", .str f.name), ("type", .str "docx"),
         ("path", .str (osPathJoin dataPath f.name))]
  else if strEndsWith f.name ".pdf" then
    match f.pdfData with
    | .error _ => none
    | .ok pages =>
      keepIfContent (String.intercalate "\n\n" ((pages.filter (fun t => t ≠ "")).map clean_text))
        [("source", .str f.name), ("type", .str "pdf"),
         ("path", .str (osPathJoin dataPath f.name)), ("pages", .nat pages.length)]
  else if strEndsWith f.name ".txt" || strEndsWith f.name ".md" then
    match f.textData with
    | .error _ => none
    | .ok raw =>
      keepIfContent (clean_text raw)
        [("source", .str f.name), ("type", .str "text"),
         ("path", .str (osPathJoin dataPath f.name))]
  else none

/-- Result record of the DSPy information extractor. -/
structure IEPResult where
  insights : String
  entities : String
  summary : String
deriving Repr, DecidableEq

/-- The dspy extractor collaborator: text in, structured result or an
exception out. -/
def IEPExtractor := String → Except String IEPResult

/-- The trailing part of the f-string template for enhanced content. -/
def enhancedSuffix (r : IEPResult) : String :=
  "\n\nKey Insights:\n" ++ r.insights ++ "\n\nImportant Entities:\n" ++ r.entities ++
  "\n\nSummary:\n" ++ r.summary ++ "\n"

/-- The enhanced-content f-string of loaders.process_with_dspy and of
IEPPipeline.process_documents (identical in both). -/
def enhancedContent (content : String) (r : IEPResult) : String :=
  "\nOriginal Content:\n" ++ content ++ enhancedSuffix r

/-- The enhanced document built by loaders.process_with_dspy on a
successful extraction (lines 45 to 52); the metadata merge adds the two
dspy keys. -/
def loadersEnhancedDoc (doc : LangchainDocument) (r : IEPResult) : LangchainDocument :=
  { page_content := enhancedContent doc.page_content r,
    metadata := doc.metadata ++
      [("processed_with", .str "dspy"), ("has_enhanced_content", .bool true)] }

/-- loaders.process_with_dspy: one loop iteration per document; on success
the enhanced document is appended, on an extractor exception the original
document is appended instead (the except branch, lines 55 to 58). -/
def process_with_dspy (ex : IEPExtractor) : List LangchainDocument → List LangchainDocument
  | [] => []
  | doc :: rest =>
    (match ex doc.page_content with
     | .ok r => loadersEnhancedDoc doc r
     | .error _ => doc) :: process_with_dspy ex rest

/-- The enhanced document built by IEPPipeline.process_documents on a
successful extraction (dspy_pipeline.py, lines 67 to 75). -/
def pipelineEnhancedDoc (doc : LangchainDocument) (r : IEPResult) : LangchainDocument :=
  { page_content := enhancedContent doc.page_content r,
    metadata := doc.metadata ++
      [("processed_with", .str "dspy"), ("enhancement_type", .str "full"),
       ("original_length", .nat doc.page_content.length)] }

/-- IEPPipeline.process_documents (dspy_pipeline.py, lines 35 to 84): same
loop shape as process_with_dspy, with the pipeline metadata keys. -/
def IEPPipeline.process_documents (ex : IEPExtractor) :
    List LangchainDocument → List LangchainDocument
  | [] => []
  | doc :: rest =>
    (match ex doc.page_content with
     | .ok r => pipelineEnhancedDoc doc r
     | .error _ => doc) :: IEPPipeline.process_documents ex rest

/-- Python list.remove: delete the first element equal to x. -/
def removeFirstEq (x : LangchainDocument) :
    List LangchainDocument → List LangchainDocument
  | [] => []
  | y :: ys => if y = x then ys else y :: removeFirstEq x ys

/-- The verification loop at the end of load_documents (lines 169 to 172):
iterate over the list by position and call docs.remove on documents whose
page_content is falsy (page_content is always a string in this model, so
the isinstance test never fires).  Removal during iteration advances the
index anyway, exactly as in Python.  The fuel bounds the iteration count;
the initial length always suffices because each iteration moves the index
forward while the list never grows. -/
def verifyLoopAux : Nat → Nat → List LangchainDocument → List LangchainDocument
  | 0, _, docs => docs
  | fuel + 1, i, docs =>
    match docs.get? i with
    | none => docs
    | some doc =>
      if doc.page_content = "" then verifyLoopAux fuel (i + 1) (removeFirstEq doc docs)
      else verifyLoopAux fuel (i + 1) docs

def verifyLoop (docs : List LangchainDocument) : List LangchainDocument :=
  verifyLoopAux docs.length 0 docs

/-- loaders.load_documents: none for the data path models a directory that
does not exist (the os.path.exists guard, lines 90 to 92).  The files are
processed in listing order, skipping failures and empty documents; when
use_dspy is requested and documents were loaded, IEPPipeline() is
constructed (pipelineInit, which raises when the api key is absent, making
the whole call raise) and the documents are replaced by the processed ones;
finally the verification loop runs. -/
def load_documents (dataDir : Option (List DirFile)) (dataPath : String)
    (use_dspy : Bool) (pipelineInit : Except String IEPExtractor) :
    Except String (List LangchainDocument) :=
  match dataDir with
  | none => .ok []
  | some files =>
    let docs := files.filterMap (processFile dataPath)
    if use_dspy && !docs.isEmpty then
      match pipelineInit with
      | .error e => .error e
      | .ok ex => .ok (verifyLoop (process_with_dspy ex docs))
    else .ok (verifyLoop docs)

/-! ## Chunking and the index store (embeddings.py, dspy_pipeline.py) -/

/-- chunk_size passed to the text splitter in build_faiss_index. -/
def chunkSize : Nat := 1000

/-- chunk_overlap passed to the text splitter in build_faiss_index. -/
def chunkOverlap : Nat := 200

/-- Modelled from the spec: the text splitter itself
(RecursiveCharacterTextSplitter) is third-party langchain library code not
present in this repository; build_faiss_index only configures it with
chunk_size 1000 and chunk_overlap 200.  Following the contract in the spec,
a text is cut into chunks of at most chunkSize characters such that two
consecutive chunks of one document overlap in chunkOverlap characters, so
the window advances by chunkSize minus chunkOverlap positions.  The fuel
only bounds the recursion; the length of the text always suffices. -/
def splitCharsAux : Nat → List Char → List (List Char)
  | _, [] => []
  | 0, l => [l]
  | fuel + 1, l =>
    if l.length ≤ chunkSize then [l]
    else l.take chunkSize :: splitCharsAux fuel (l.drop (chunkSize - chunkOverlap))

def splitChars (l : List Char) : List (List Char) := splitCharsAux l.length l

/-- Modelled from the spec: split_documents maps the splitter over every
document, each chunk inheriting the parent metadata. -/
def split_documents (docs : List LangchainDocument) : List LangchainDocument :=
  (docs.map (fun d =>
    (splitChars d.page_content.data).map
      (fun c => { page_content := String.mk c, metadata := d.metadata }))).flatten

/-- The vector index over the embedded chunks.  Embedding vectors and FAISS
serialization are external effects outside the model; the index is
identified by the chunk documents it holds. -/
structure Vectorstore where
  chunks : List LangchainDocument
deriving Repr, DecidableEq

/-- embeddings.build_faiss_index: split the documents into chunks and index
them.  The embedding API call and the save to disk are external effects. -/
def build_faiss_index (documents : List LangchainDocument) : Vectorstore :=
  { chunks := split_documents documents }

/-- embeddings.load_faiss_index: the body is a bare FAISS.load_local with
no try/except, so the outcome of the load (a vectorstore, or the exception
FAISS raises when the persisted index is missing, empty or unreadable) is
exactly what the caller sees. -/
def load_faiss_index (persisted : Except String Vectorstore) :
    Except String Vectorstore :=
  persisted

/-- dspy_pipeline.build_faiss_index_with_dspy: construct the pipeline,
enhance the documents, and index the concatenation of the original and the
enhanced documents (line 107).  The except branch falls back to indexing
the original documents alone when pipeline construction raises;
process_documents itself never raises. -/
def build_faiss_index_with_dspy (pipelineInit : Except String IEPExtractor)
    (documents : List LangchainDocument) : Vectorstore :=
  match pipelineInit with
  | .ok ex =>
    let enhanced_docs := IEPPipeline.process_documents ex documents
    let all_docs := documents ++ enhanced_docs
    build_faiss_index all_docs
  | .error _ => build_faiss_index documents

/-! ## The driver (main.py, initialize_qa_chain) -/

/-- The RAG chain as far as the driver model needs it. -/
structure Chain where
  vectorstore : Vectorstore
  model_name : String
deriving Repr, DecidableEq

/-- The distinct return sites of initialize_qa_chain.  chain is the
successful return of a built chain; noDocuments is the early None return
after the loader came back empty (lines 65 to 67); noVectorstore is the
None return when no vector store was produced (lines 81 to 83); noChain is
the None return when no chain was produced (lines 96 to 98);
exceptionCaught is the outer except returning None, carrying the message of
the exception that reached it (lines 100 to 102). -/
inductive InitOutcome where
  | chain (c : Chain)
  | noDocuments
  | noVectorstore
  | noChain
  | exceptionCaught (e : String)
deriving Repr, DecidableEq

/-- The environment initialize_qa_chain runs in: the outcome FAISS
deserialization would produce for the currently persisted index, the
listing of the data directory, and the outcome of constructing
IEPPipeline() (which raises when OPENAI_API_KEY is not set). -/
structure DriverEnv where
  persistedIndex : Except String Vectorstore
  dataFiles : List DirFile
  pipelineInit : Except String IEPExtractor

/-- Step 5 of initialize_qa_chain calls build_rag_chain(vectorstore,
model_name=model_name) (main.py lines 88 to 91), but chains.build_rag_chain
takes a single parameter (chains.py line 6), so the call raises a TypeError
that propagates to the outer except and becomes a None return. -/
def chainStep (_vs : Vectorstore) (_model_name : String) : InitOutcome :=
  .exceptionCaught "TypeError: build_rag_chain got an unexpected keyword argument"

/-- main.initialize_qa_chain.  os.makedirs ensures that both the data and
the index directory exist, so the os.path.exists tests on them succeed and
the index load is attempted exactly when rebuild_index is false.  A loaded
FAISS handle is always truthy, so a successful load goes straight to the
chain step; an exception anywhere inside the try block reaches the outer
except and returns None (exceptionCaught). -/
def initialize_qa_chain (env : DriverEnv) (use_dspy rebuild_index : Bool)
    (model_name : String) : InitOutcome :=
  let loaded : Except String (Option Vectorstore) :=
    if rebuild_index then .ok none
    else
      match load_faiss_index env.persistedIndex with
      | .error e => .error e
      | .ok vs => .ok (some vs)
  match loaded with
  | .error e => .exceptionCaught e
  | .ok (some vectorstore) => chainStep vectorstore model_name
  | .ok none =>
    match load_documents (some env.dataFiles) "data" use_dspy env.pipelineInit with
    | .error e => .exceptionCaught e
    | .ok [] => .noDocuments
    | .ok documents =>
      let vectorstore :=
        if use_dspy then build_faiss_index_with_dspy env.pipelineInit documents
        else build_faiss_index documents
      chainStep vectorstore model_name

/-! ## Predicates and fixtures used by the claim statements -/

/-- Discriminates the error constructor of Except. -/
def exceptFails {ε α : Type} : Except ε α → Bool
  | .error _ => true
  | .ok _ => false

/-- The extraction the loader would run for this file raises: the file
name falls in one of the three extension branches of load_documents and
the corresponding extraction fails. -/
def extractionRaises (f : DirFile) : Bool :=
  if strEndsWith f.name ".docx" || strEndsWith f.name ".doc" then exceptFails f.docxData
  else if strEndsWith f.name ".pdf" then exceptFails f.pdfData
  else if strEndsWith f.name ".txt" || strEndsWith f.name ".md" then exceptFails f.textData
  else false

/-- The file extensions load_documents dispatches on. -/
def supportedExt (name : String) : Bool :=
  strEndsWith name ".docx" || strEndsWith name ".doc" || strEndsWith name ".pdf" ||
  strEndsWith name ".txt" || strEndsWith name ".md"

/-- Fixture: a loadable text file. -/
def fileA : DirFile := ⟨"a.txt", .error "x", .error "x", .ok "Hello"⟩

/-- Fixture: the document the loader produces from fileA in directory data. -/
def docA : LangchainDocument :=
  ⟨"Hello", [("source", .str "a.txt"), ("type", .str "text"), ("path", .str "data/a.txt")]⟩

/-- Fixture: a text file whose read raises. -/
def fileBad : DirFile := ⟨"bad.txt", .error "x", .error "x", .error "boom"⟩

/-- Fixture: a file with an unsupported extension. -/
def filePng : DirFile := ⟨"p.png", .ok ["a"], .ok ["a"], .ok "a"⟩

/-- Fixture: a driver environment with an unreadable persisted index and a
loadable data directory. -/
def envC1 : DriverEnv := ⟨.error "missing index", [fileA], .error "no api key"⟩

/-- Fixture: a driver environment whose data directory holds only a file
with an unsupported extension. -/
def envC6 : DriverEnv := ⟨.error "missing index", [filePng], .error "no api key"⟩

/-- Fixture: the result of a successful extraction. -/
def resW : IEPResult := ⟨"ins", "ent", "sum"⟩

/-- Fixture: an extractor collaborator that always succeeds. -/
def exW : IEPExtractor := fun _ => .ok resW

/-! ## Helper lemmas -/

theorem processFile_eq_none_of_raises (dp : String) (f : DirFile)
    (h : extractionRaises f = true) : processFile dp f = none := by
  unfold extractionRaises at h
  unfold processFile
  by_cases h1 : (strEndsWith f.name ".docx" || strEndsWith f.name ".doc") = true
  · rw [if_pos h1] at h ⊢
    cases hd : f.docxData with
    | error e => simp [hd]
    | ok v => rw [hd] at h; simp [exceptFails] at h
  · rw [if_neg h1] at h ⊢
    by_cases h2 : strEndsWith f.name ".pdf" = true
    · rw [if_pos h2] at h ⊢
      cases hd : f.pdfData with
      | error e => simp [hd]
      | ok v => rw [hd] at h; simp [exceptFails] at h
    · rw [if_neg h2] at h ⊢
      by_cases h3 : (strEndsWith f.name ".txt" || strEndsWith f.name ".md") = true
      · rw [if_pos h3] at h ⊢
        cases hd : f.textData with
        | error e => simp [hd]
        | ok v => rw [hd] at h; simp [exceptFails] at h
      · rw [if_neg h3] at h
        exact absurd h (by simp)

theorem processFile_eq_none_of_unsupported (dp : String) (f : DirFile)
    (h : supportedExt f.name = false) : processFile dp f = none := by
  unfold supportedExt at h
  simp only [Bool.or_eq_false_iff] at h
  obtain ⟨⟨⟨⟨h1, h2⟩, h3⟩, h4⟩, h5⟩ := h
  simp [processFile, h1, h2, h3, h4, h5]

theorem mem_of_mem_removeFirstEq {x d : LangchainDocument} {l : List LangchainDocument}
    (h : d ∈ removeFirstEq x l) : d ∈ l := by
  induction l with
  | nil => simp [removeFirstEq] at h
  | cons y ys ih =>
    by_cases hy : y = x
    · rw [removeFirstEq, if_pos hy] at h
      exact List.mem_cons_of_mem _ h
    · rw [removeFirstEq, if_neg hy] at h
      rcases List.mem_cons.1 h with h | h
      · exact h ▸ List.mem_cons_self _ _
      · exact List.mem_cons_of_mem _ (ih h)

theorem mem_of_mem_verifyLoopAux {d : LangchainDocument} :
    ∀ (fuel i : Nat) (l : List LangchainDocument), d ∈ verifyLoopAux fuel i l → d ∈ l := by
  intro fuel
  induction fuel with
  | zero => intro i l h; exact h
  | succ n ih =>
    intro i l h
    rw [verifyLoopAux] at h
    cases hg : l.get? i with
    | none => simp only [hg] at h; exact h
    | some doc =>
      simp only [hg] at h
      split at h
      · exact mem_of_mem_removeFirstEq (ih _ _ h)
      · exact ih _ _ h

theorem mem_of_mem_verifyLoop {d : LangchainDocument} {l : List LangchainDocument}
    (h : d ∈ verifyLoop l) : d ∈ l := mem_of_mem_verifyLoopAux _ _ _ h

theorem any_not_pySpace_of_pyStrip_ne_nil {l : List Char} (h : pyStrip l ≠ []) :
    l.any (fun c => !(isPySpace c)) = true := by
  unfold pyStrip at h
  have h1 : ((l.dropWhile isPySpace).reverse.dropWhile isPySpace) ≠ [] := by
    intro he; exact h (by rw [he]; rfl)
  have hhead : isPySpace (((l.dropWhile isPySpace).reverse.dropWhile isPySpace).head h1) = false :=
    List.head_dropWhile_not isPySpace _ h1
  have hmem : ((l.dropWhile isPySpace).reverse.dropWhile isPySpace).head h1 ∈ l := by
    have m1 := List.head_mem h1
    have m2 := (List.dropWhile_sublist isPySpace).subset m1
    rw [List.mem_reverse] at m2
    exact (List.dropWhile_sublist isPySpace).subset m2
  rw [List.any_eq_true]
  exact ⟨_, hmem, by simp [hhead]⟩

theorem string_content_of_pyStrip_ne_nil {text : String} (h : pyStrip text.data ≠ []) :
    text ≠ "" ∧ text.data.any (fun c => !(isPySpace c)) = true := by
  have hany := any_not_pySpace_of_pyStrip_ne_nil h
  refine ⟨?_, hany⟩
  intro he
  rw [he] at hany
  simp at hany

theorem keepIfContent_content {text : String} {meta : List (String × MetaVal)}
    {doc : LangchainDocument} (h : keepIfContent text meta = some doc) :
    doc.page_content ≠ "" ∧ doc.page_content.data.any (fun c => !(isPySpace c)) = true := by
  unfold keepIfContent at h
  split at h
  · rename_i hguard
    cases h
    exact string_content_of_pyStrip_ne_nil hguard
  · exact absurd h (by simp)

theorem processFile_content (dp : String) (f : DirFile) (doc : LangchainDocument)
    (h : processFile dp f = some doc) :
    doc.page_content ≠ "" ∧ doc.page_content.data.any (fun c => !(isPySpace c)) = true := by
  unfold processFile at h
  by_cases h1 : (strEndsWith f.name ".docx" || strEndsWith f.name ".doc") = true
  · rw [if_pos h1] at h
    cases hd : f.docxData with
    | error e => simp only [hd] at h; exact absurd h (by simp)
    | ok paras => simp only [hd] at h; exact keepIfContent_content h
  · rw [if_neg h1] at h
    by_cases h2 : strEndsWith f.name ".pdf" = true
    · rw [if_pos h2] at h
      cases hd : f.pdfData with
      | error e => simp only [hd] at h; exact absurd h (by simp)
      | ok pages => simp only [hd] at h; exact keepIfContent_content h
    · rw [if_neg h2] at h
      by_cases h3 : (strEndsWith f.name ".txt" || strEndsWith f.name ".md") = true
      · rw [if_pos h3] at h
        cases hd : f.textData with
        | error e => simp only [hd] at h; exact absurd h (by simp)
        | ok raw => simp only [hd] at h; exact keepIfContent_content h
      · rw [if_neg h3] at h
        exact absurd h (by simp)

theorem enhancedContent_any (content : String) (r : IEPResult) :
    (enhancedContent content r).data.any (fun c => !(isPySpace c)) = true := by
  have hdata : (enhancedContent content r).data =
      ("\nOriginal Content:\n" : String).data ++ (content.data ++ (enhancedSuffix r).data) := by
    simp [enhancedContent, List.append_assoc]
  rw [hdata, List.any_append]
  have h1 : (("\nOriginal Content:\n" : String).data.any (fun c => !(isPySpace c))) = true := by
    decide
  rw [h1, Bool.true_or]

theorem ne_empty_of_any (f : Char → Bool) {s : String} (h : s.data.any f = true) :
    s ≠ "" := by
  intro he; rw [he] at h; simp at h

theorem process_with_dspy_content (ex : IEPExtractor) (l : List LangchainDocument)
    (hl : ∀ d ∈ l, d.page_content ≠ "" ∧
      d.page_content.data.any (fun c => !(isPySpace c)) = true) :
    ∀ d ∈ process_with_dspy ex l,
      d.page_content ≠ "" ∧ d.page_content.data.any (fun c => !(isPySpace c)) = true := by
  induction l with
  | nil => intro d hd; simp [process_with_dspy] at hd
  | cons a rest ih =>
    intro d hd
    simp only [process_with_dspy] at hd
    rcases List.mem_cons.1 hd with h | h
    · subst h
      cases hex : ex a.page_content with
      | ok r =>
        simp only [hex, loadersEnhancedDoc]
        exact ⟨ne_empty_of_any _ (enhancedContent_any a.page_content r),
               enhancedContent_any a.page_content r⟩
      | error e =>
        simp only [hex]
        exact hl a (List.mem_cons_self a rest)
    · exact ih (fun d hd => hl d (List.mem_cons_of_mem _ hd)) d h

theorem process_with_dspy_eq_map (ex : IEPExtractor) (l : List LangchainDocument) :
    process_with_dspy ex l = l.map (fun doc =>
      match ex doc.page_content with
      | .ok r => loadersEnhancedDoc doc r
      | .error _ => doc) := by
  induction l with
  | nil => rfl
  | cons a rest ih => simp [process_with_dspy, ih]

theorem pipeline_process_eq_map (ex : IEPExtractor) (l : List LangchainDocument) :
    IEPPipeline.process_documents ex l = l.map (fun doc =>
      match ex doc.page_content with
      | .ok r => pipelineEnhancedDoc doc r
      | .error _ => doc) := by
  induction l with
  | nil => rfl
  | cons a rest ih => simp [IEPPipeline.process_documents, ih]

theorem splitCharsAux_length_le :
    ∀ (fuel : Nat) (l : List Char), l.length ≤ fuel + chunkSize →
      ∀ c ∈ splitCharsAux fuel l, c.length ≤ chunkSize := by
  intro fuel
  induction fuel with
  | zero =>
    intro l hl c hc
    cases l with
    | nil => simp [splitCharsAux] at hc
    | cons a as =>
      simp only [splitCharsAux, List.mem_singleton] at hc
      subst hc
      rw [Nat.zero_add] at hl
      exact hl
  | succ n ih =>
    intro l hl c hc
    cases l with
    | nil => simp [splitCharsAux] at hc
    | cons a as =>
      simp only [splitCharsAux] at hc
      split at hc
      · rename_i hle
        rw [List.mem_singleton] at hc
        subst hc
        exact hle
      · rename_i hgt
        rcases List.mem_cons.1 hc with rfl | hmem
        · exact List.length_take_le chunkSize (a :: as)
        · refine ih _ ?_ _ hmem
          rw [List.length_drop]
          simp only [chunkSize, chunkOverlap] at hl ⊢
          omega

theorem splitChars_length_le (l : List Char) :
    ∀ c ∈ splitChars l, c.length ≤ chunkSize :=
  splitCharsAux_length_le l.length l (Nat.le_add_right _ _)

theorem splitCharsAux_head_shape :
    ∀ (fuel : Nat) (m : List Char), m ≠ [] →
      ∃ b rest, splitCharsAux fuel m = b :: rest ∧ (b = m ∨ b = m.take chunkSize) := by
  intro fuel m hm
  cases fuel with
  | zero =>
    cases m with
    | nil => exact absurd rfl hm
    | cons a as => exact ⟨a :: as, [], by simp [splitCharsAux], Or.inl rfl⟩
  | succ n =>
    cases m with
    | nil => exact absurd rfl hm
    | cons a as =>
      by_cases hle : (a :: as).length ≤ chunkSize
      · refine ⟨a :: as, [], ?_, Or.inl rfl⟩
        simp only [splitCharsAux]
        rw [if_pos hle]
      · refine ⟨(a :: as).take chunkSize,
          splitCharsAux n ((a :: as).drop (chunkSize - chunkOverlap)), ?_, Or.inr rfl⟩
        simp only [splitCharsAux]
        rw [if_neg hle]

theorem take_chunk_drop (l : List Char) :
    (l.take chunkSize).drop (chunkSize - chunkOverlap) =
      (l.drop (chunkSize - chunkOverlap)).take chunkOverlap := by
  have he : chunkSize - chunkOverlap + chunkOverlap = chunkSize := by decide
  have h := List.take_drop (chunkSize - chunkOverlap) chunkOverlap l
  rw [he] at h
  exact h.symm

theorem splitCharsAux_chain :
    ∀ (fuel : Nat) (l : List Char),
      List.Chain' (fun a b => a.drop (chunkSize - chunkOverlap) = b.take chunkOverlap)
        (splitCharsAux fuel l) := by
  intro fuel
  induction fuel with
  | zero =>
    intro l
    cases l with
    | nil => simp [splitCharsAux]
    | cons a as => simp [splitCharsAux]
  | succ n ih =>
    intro l
    cases l with
    | nil => simp [splitCharsAux]
    | cons a as =>
      simp only [splitCharsAux]
      split
      · simp
      · rename_i hgt
        have hne : ((a :: as).drop (chunkSize - chunkOverlap)) ≠ [] := by
          intro he
          have hlen := congrArg List.length he
          rw [List.length_drop] at hlen
          simp only [chunkSize, chunkOverlap] at hgt hlen
          simp only [List.length_nil] at hlen
          omega
        obtain ⟨b, rest, heq, hb⟩ := splitCharsAux_head_shape n _ hne
        rw [heq, List.chain'_cons']
        constructor
        · intro y hy
          obtain rfl : b = y := by simpa using hy
          rcases hb with rfl | rfl
          · exact take_chunk_drop (a :: as)
          · rw [List.take_take]
            have hmin : min chunkOverlap chunkSize = chunkOverlap := by decide
            rw [hmin]
            exact take_chunk_drop (a :: as)
        · rw [← heq]
          exact ih _

/-! ## Claim theorems -/

/-- C1: the claim says a missing, empty or unreadable persisted index makes
the load return an absent value and the driver then rebuild from source
documents.  The code has no handler inside load_faiss_index, so the
exception FAISS.load_local raises propagates to the outer except of
initialize_qa_chain, which returns None: with rebuild_index false the
driver never reaches its rebuild branch, whatever the data directory
holds. -/
theorem index_load_error_returns_none_instead_of_rebuilding
    (env : DriverEnv) (e : String) (u : Bool) (m : String)
    (h : env.persistedIndex = .error e) :
    initialize_qa_chain env u false m = .exceptionCaught e := by
  simp [initialize_qa_chain, load_faiss_index, h]

theorem index_load_error_returns_none_instead_of_rebuilding_witness :
    envC1.persistedIndex = .error "missing index" ∧
    initialize_qa_chain envC1 false false "gpt-4o-mini" = .exceptionCaught "missing index" ∧
    load_documents (some envC1.dataFiles) "data" false envC1.pipelineInit = .ok [docA] :=
  ⟨rfl,
   index_load_error_returns_none_instead_of_rebuilding envC1 "missing index" false
     "gpt-4o-mini" rfl,
   by decide⟩

/-- C2 counterexample: cleaning the scenario text does not produce the
string the claim expects, because the punctuation-collapse class [.:;,]
does not contain the exclamation mark. -/
theorem clean_text_scenario_ne_spec :
    clean_text "Hello.   World!!" ≠ "Hello. World." := by decide

/-- C2 amended: cleaning the scenario text collapses the whitespace run to
a single space and keeps the double exclamation marks unchanged. -/
theorem clean_text_scenario_keeps_exclamations :
    clean_text "Hello.   World!!" = "Hello. World!!" := by decide

/-- C3: a file whose extraction raises is skipped, and the loader output
over any directory listing containing it equals the output over the same
listing without it; in particular the scan is never aborted and every
other document is still returned. -/
theorem extraction_error_skips_only_that_file
    (fs₁ fs₂ : List DirFile) (f : DirFile) (dp : String) (u : Bool)
    (p : Except String IEPExtractor) (h : extractionRaises f = true) :
    load_documents (some (fs₁ ++ f :: fs₂)) dp u p =
      load_documents (some (fs₁ ++ fs₂)) dp u p := by
  have hf := processFile_eq_none_of_raises dp f h
  simp [load_documents, List.filterMap_append, List.filterMap_cons, hf]

theorem extraction_error_skips_only_that_file_witness :
    extractionRaises fileBad = true ∧
    load_documents (some ([fileA] ++ fileBad :: [])) "data" false (.error "k") =
      load_documents (some ([fileA] ++ [])) "data" false (.error "k") :=
  ⟨by decide,
   extraction_error_skips_only_that_file [fileA] [] fileBad "data" false (.error "k")
     (by decide)⟩

/-- C4: every document in a successful loader result has non-empty content
containing at least one non-whitespace character. -/
theorem returned_documents_have_content
    (dataDir : Option (List DirFile)) (dataPath : String) (u : Bool)
    (p : Except String IEPExtractor) (docs : List LangchainDocument)
    (h : load_documents dataDir dataPath u p = .ok docs) :
    ∀ doc ∈ docs, doc.page_content ≠ "" ∧
      doc.page_content.data.any (fun c => !(isPySpace c)) = true := by
  cases dataDir with
  | none =>
    simp only [load_documents] at h
    cases h
    simp
  | some files =>
    have hbase : ∀ d ∈ files.filterMap (processFile dataPath),
        d.page_content ≠ "" ∧ d.page_content.data.any (fun c => !(isPySpace c)) = true := by
      intro d hd
      rcases List.mem_filterMap.1 hd with ⟨f, _, hf⟩
      exact processFile_content dataPath f d hf
    simp only [load_documents] at h
    split at h
    · cases hp : p with
      | error e => rw [hp] at h; exact absurd h (by simp)
      | ok ex =>
        rw [hp] at h
        cases h
        intro doc hdoc
        exact process_with_dspy_content ex _ hbase doc (mem_of_mem_verifyLoop hdoc)
    · cases h
      intro doc hdoc
      exact hbase doc (mem_of_mem_verifyLoop hdoc)

theorem returned_documents_have_content_witness :
    docA.page_content ≠ "" ∧
      docA.page_content.data.any (fun c => !(isPySpace c)) = true :=
  returned_documents_have_content (some [fileA]) "data" false (.error "k") [docA]
    (by decide) docA (by decide)

/-- C5: every chunk produced for the index build is at most chunkSize
characters long, and inside one document consecutive chunks overlap in
chunkOverlap characters: the characters of a chunk past position
chunkSize minus chunkOverlap are exactly the first chunkOverlap characters
of the next chunk. -/
theorem chunks_bounded_with_overlap (docs : List LangchainDocument) :
    (∀ c ∈ split_documents docs, c.page_content.length ≤ chunkSize) ∧
    ∀ d ∈ docs,
      List.Chain' (fun a b => a.drop (chunkSize - chunkOverlap) = b.take chunkOverlap)
        (splitChars d.page_content.data) := by
  constructor
  · intro c hc
    rcases List.mem_flatten.1 hc with ⟨lc, hlc, hcin⟩
    rcases List.mem_map.1 hlc with ⟨d, hd, rfl⟩
    rcases List.mem_map.1 hcin with ⟨cl, hclmem, rfl⟩
    have hb := splitChars_length_le d.page_content.data cl hclmem
    simpa [String.length] using hb
  · intro d _
    exact splitCharsAux_chain _ _

theorem chunks_bounded_with_overlap_witness :
    docA.page_content.length ≤ chunkSize ∧
    List.Chain' (fun a b => a.drop (chunkSize - chunkOverlap) = b.take chunkOverlap)
      (splitChars docA.page_content.data) :=
  ⟨(chunks_bounded_with_overlap [docA]).1 docA (by decide),
   (chunks_bounded_with_overlap [docA]).2 docA (by decide)⟩

/-- C6: when no file of the data directory yields a document, the loader
returns the empty list and the rebuild path of the driver stops at the
no-documents report instead of building an index. -/
theorem empty_load_refuses_index_build (env : DriverEnv) (u : Bool) (m : String)
    (h : env.dataFiles.filterMap (processFile "data") = []) :
    load_documents (some env.dataFiles) "data" u env.pipelineInit = .ok [] ∧
    initialize_qa_chain env u true m = .noDocuments := by
  have hl : load_documents (some env.dataFiles) "data" u env.pipelineInit = .ok [] := by
    simp [load_documents, h, verifyLoop, verifyLoopAux]
  refine ⟨hl, ?_⟩
  simp [initialize_qa_chain, hl]

theorem empty_load_refuses_index_build_witness :
    envC6.dataFiles.filterMap (processFile "data") = [] ∧
    load_documents (some envC6.dataFiles) "data" false envC6.pipelineInit = .ok [] ∧
    initialize_qa_chain envC6 false true "gpt-4o-mini" = .noDocuments :=
  ⟨by decide,
   (empty_load_refuses_index_build envC6 false "gpt-4o-mini" (by decide)).1,
   (empty_load_refuses_index_build envC6 false "gpt-4o-mini" (by decide)).2⟩

/-- C7: both dspy processing loops return exactly one output document per
input document, at the same position: the enhanced version when the
extractor succeeds on that document, the untouched original when it
raises; a per-document failure is never fatal. -/
theorem dspy_enhancement_never_fatal (ex : IEPExtractor) (docs : List LangchainDocument) :
    (process_with_dspy ex docs).length = docs.length ∧
    (∀ i : Nat, (process_with_dspy ex docs)[i]? = docs[i]?.map (fun doc =>
      match ex doc.page_content with
      | .ok r => loadersEnhancedDoc doc r
      | .error _ => doc)) ∧
    (IEPPipeline.process_documents ex docs).length = docs.length ∧
    ∀ i : Nat, (IEPPipeline.process_documents ex docs)[i]? = docs[i]?.map (fun doc =>
      match ex doc.page_content with
      | .ok r => pipelineEnhancedDoc doc r
      | .error _ => doc) := by
  refine ⟨?_, ?_, ?_, ?_⟩
  · rw [process_with_dspy_eq_map, List.length_map]
  · intro i; rw [process_with_dspy_eq_map, List.getElem?_map]
  · rw [pipeline_process_eq_map, List.length_map]
  · intro i; rw [pipeline_process_eq_map, List.getElem?_map]

/-- C8: a directory whose files all have unsupported extensions loads to
the empty document list with no error. -/
theorem unsupported_extensions_give_empty_list (files : List DirFile)
    (dp : String) (u : Bool) (p : Except String IEPExtractor)
    (h : ∀ f ∈ files, supportedExt f.name = false) :
    load_documents (some files) dp u p = .ok [] := by
  have hnil : files.filterMap (processFile dp) = [] :=
    List.filterMap_eq_nil_iff.2 fun f hf => processFile_eq_none_of_unsupported dp f (h f hf)
  simp [load_documents, hnil, verifyLoop, verifyLoopAux]

theorem unsupported_extensions_give_empty_list_witness :
    (∀ f ∈ [filePng], supportedExt f.name = false) ∧
    load_documents (some [filePng]) "data" false (.error "k") = .ok [] :=
  ⟨by decide,
   unsupported_extensions_give_empty_list [filePng] "data" false (.error "k") (by decide)⟩

/-- C9: with the pipeline constructed, the dspy index is built over the
original documents followed by their processed versions: position i holds
the unchanged original, position length plus i its processed version, and
for a successful extraction that version contains the original content
verbatim as a substring, so the content enters the index twice instead of
being replaced. -/
theorem dspy_index_holds_originals_and_enhanced (ex : IEPExtractor)
    (docs : List LangchainDocument) :
    build_faiss_index_with_dspy (.ok ex) docs =
      build_faiss_index (docs ++ IEPPipeline.process_documents ex docs) ∧
    (docs ++ IEPPipeline.process_documents ex docs).length = 2 * docs.length ∧
    (∀ i : Nat, i < docs.length →
      (docs ++ IEPPipeline.process_documents ex docs)[i]? = docs[i]?) ∧
    ∀ (i : Nat) doc r, docs[i]? = some doc → ex doc.page_content = .ok r →
      (docs ++ IEPPipeline.process_documents ex docs)[docs.length + i]? =
        some (pipelineEnhancedDoc doc r) ∧
      ∃ s₁ s₂ : String, (pipelineEnhancedDoc doc r).page_content =
        s₁ ++ doc.page_content ++ s₂ := by
  refine ⟨rfl, ?_, ?_, ?_⟩
  · rw [List.length_append, pipeline_process_eq_map, List.length_map]
    omega
  · intro i hi
    exact List.getElem?_append_left hi
  · intro i doc r hget hex
    constructor
    · rw [List.getElem?_append_right (Nat.le_add_right _ _), Nat.add_sub_cancel_left,
        pipeline_process_eq_map, List.getElem?_map, hget]
      simp [hex]
    · exact ⟨"\nOriginal Content:\n", enhancedSuffix r, rfl⟩

theorem dspy_index_holds_originals_and_enhanced_witness :
    ([docA] ++ IEPPipeline.process_documents exW [docA])[[docA].length + 0]? =
      some (pipelineEnhancedDoc docA resW) ∧
    ∃ s₁ s₂ : String, (pipelineEnhancedDoc docA resW).page_content =
      s₁ ++ docA.page_content ++ s₂ :=
  (dspy_index_holds_originals_and_enhanced exW [docA]).2.2.2 0 docA resW rfl rfl

/-- C10: loading a directory path that does not exist returns the empty
list and raises nothing, for every dspy flag and pipeline state. -/
theorem missing_directory_gives_empty_list (dataPath : String) (u : Bool)
    (p : Except String IEPExtractor) :
    load_documents none dataPath u p = .ok [] := rfl

end TLA
